import Mathlib

/-!
Shallow embedding of src/wgpu-native/src/hub.rs: the generational-index
identity allocator (IdentityManager), the epoch-checked storage map
(Storage, backed by a VecMap), and the Registry combining them.

Rust panics (assert!, assert_eq!, unwrap, out-of-range indexing) are
fatal IntegrityViolations.  A fallible operation returns a PResult that
is either the successful final state with the produced value, or panic
together with the state as it stands at the moment the panic fires
(mutations the Rust code performed before the failing assertion have
already happened and are recorded in that state).

The Rust Vec used as a stack (free list: push then pop the last element)
is modelled as a List with cons as push and head as pop; both are the
same LIFO stack.  VecMap<(T, Epoch)> is modelled as a
List (Option (T × Epoch)) indexed by position, growing with none padding
on insert past the end, exactly as the vec_map crate does.
-/

/-- Modelled from the spec: the crate-root type alias Index (an unsigned
integer index into per-kind storage) is not under src/, only its use in
hub.rs is; the spec describes it as an unsigned integer. -/
abbrev Index := Nat

/-- Modelled from the spec: the crate-root type alias Epoch (the
per-index generation counter) is not under src/; the spec describes it
as an unsigned integer that starts at 1 and is incremented on each free,
with strictly increasing values, so it is modelled as an unbounded Nat. -/
abbrev Epoch := Nat

/-- Modelled from the spec: the TypedId trait (construct from
(index, epoch), extract index, extract epoch) is implemented by handle
types defined outside src/; per the spec a handle is exactly an
(index, epoch) pair with a compile-time kind tag, so one concrete
handle type suffices for the per-kind-generic code in hub.rs. -/
structure Handle where
  index : Index
  epoch : Epoch
deriving DecidableEq, Repr

/-- Result of a fallible operation: `ok` carries the final state and the
returned value; `panic` carries the state visible at the moment the
failing assertion fires. -/
inductive PResult (σ : Type u) (α : Type v) where
  | ok : σ → α → PResult σ α
  | panic : σ → PResult σ α
deriving DecidableEq, Repr

/-- IdentityManager from hub.rs: `free: Vec<Index>`, `epochs: Vec<Epoch>`. -/
structure IdentityManager where
  free : List Index
  epochs : List Epoch
deriving DecidableEq, Repr

namespace IdentityManager

/-- Rust `IdentityManager::alloc`: pop the free list and pair the index with its
current epoch; on an empty free list append a fresh slot with epoch 1.
The pop case indexes `epochs[index]`, which panics when the popped index
is out of range (the pop itself has already happened at that point). -/
def alloc (m : IdentityManager) : PResult IdentityManager Handle :=
  match m.free with
  | index :: rest =>
    match m.epochs[index]? with
    | some e => .ok { m with free := rest } ⟨index, e⟩
    | none => .panic { m with free := rest }
  | [] =>
    .ok { m with epochs := m.epochs ++ [1] } ⟨m.epochs.length, 1⟩

/-- Rust `IdentityManager::free` (named `free_handle` here because Lean reserves
`IdentityManager.free` for the structure field): debug-only assert that
the index is not already on the free list, then index `epochs[index]`
(panics out of range), assert the stored epoch equals the handle epoch,
increment it and push the index.  `debug` is `cfg!(debug_assertions)`. -/
def free_handle (debug : Bool) (m : IdentityManager) (id : Handle) : PResult IdentityManager Unit :=
  if debug ∧ id.index ∈ m.free then .panic m
  else
    match m.epochs[id.index]? with
    | none => .panic m
    | some pe =>
      if pe = id.epoch then
        .ok { free := id.index :: m.free, epochs := m.epochs.set id.index (pe + 1) } ()
      else .panic m

end IdentityManager

/-- Storage from hub.rs: `map: VecMap<(T, Epoch)>`. -/
structure Storage (T : Type) where
  map : List (Option (T × Epoch))
deriving DecidableEq, Repr

namespace Storage

/-- The live entry VecMap holds at index `i`, if any (a missing slot and an
out-of-range index are both absent). -/
def liveAt (s : Storage T) (i : Nat) : Option (T × Epoch) :=
  (s.map[i]?).join

/-- Rust `ops::Index for Storage`: `self.map[id.index]` panics when no entry is
present; then `assert_eq!(epoch, id.epoch())`.  `none` is the panic. -/
def index (s : Storage T) (id : Handle) : Option T :=
  match s.liveAt id.index with
  | some (value, epoch) => if epoch = id.epoch then some value else none
  | none => none

/-- Rust `ops::IndexMut for Storage`: identical checks to `index`; obtaining the
mutable reference is modelled as applying an update function in place. -/
def index_mut (s : Storage T) (id : Handle) (f : T → T) : Option (Storage T) :=
  match s.liveAt id.index with
  | some (value, epoch) =>
    if epoch = id.epoch then some ⟨s.map.set id.index (some (f value, epoch))⟩ else none
  | none => none

/-- Rust `Storage::contains`. -/
def contains (s : Storage T) (id : Handle) : Bool :=
  match s.liveAt id.index with
  | some (_, epoch) => epoch == id.epoch
  | none => false

/-- Rust `VecMap::insert`: pad with `none` up to the index when needed, replace
the slot, return the old occupant. -/
def insert (s : Storage T) (i : Nat) (v : T × Epoch) : Storage T × Option (T × Epoch) :=
  let old := s.liveAt i
  let padded := s.map ++ List.replicate (i + 1 - s.map.length) none
  (⟨padded.set i (some v)⟩, old)

/-- Rust `VecMap::remove`: take the slot's occupant, leaving `none`; absent
slots (missing or out of range) are untouched and yield `none`. -/
def remove (s : Storage T) (i : Nat) : Storage T × Option (T × Epoch) :=
  match s.map[i]? with
  | some (some v) => (⟨s.map.set i none⟩, some v)
  | _ => (s, none)

end Storage

/-- Registry from hub.rs: one IdentityManager (behind a Mutex) and one
Storage (behind an RwLock); the locks serialize the operations below,
which are therefore modelled as functions on the combined state. -/
structure Registry (T : Type) where
  identity : IdentityManager
  data : Storage T
deriving DecidableEq, Repr

namespace Registry

/-- Rust `Registry::register`: insert `(value, id.epoch)` at `id.index`, then
`assert!(old.is_none())` — the insertion has already happened when the
assertion fires. -/
def register (r : Registry T) (id : Handle) (value : T) : PResult (Registry T) Unit :=
  let ins := r.data.insert id.index (value, id.epoch)
  match ins.2 with
  | none => .ok { r with data := ins.1 } ()
  | some _ => .panic { r with data := ins.1 }

/-- Rust `Registry::register_local`: allocate a handle from the identity
manager, then `register` the value under it. -/
def register_local (r : Registry T) (value : T) : PResult (Registry T) Handle :=
  match r.identity.alloc with
  | .panic m => .panic { r with identity := m }
  | .ok m id =>
    match Registry.register { r with identity := m } id value with
    | .ok r2 _ => .ok r2 id
    | .panic r2 => .panic r2

/-- First half of `Registry::unregister` (under the storage write lock):
`self.data.write().map.remove(id.index()).unwrap()` followed by
`assert_eq!(epoch, id.epoch())`. -/
def removePhase (r : Registry T) (id : Handle) : PResult (Registry T) T :=
  let rm := r.data.remove id.index
  match rm.2 with
  | none => .panic { r with data := rm.1 }
  | some (value, epoch) =>
    if epoch = id.epoch then .ok { r with data := rm.1 } value
    else .panic { r with data := rm.1 }

/-- Second half of `Registry::unregister` (under the identity lock):
`self.identity.lock().free(id)`, then return the removed value. -/
def freePhase (debug : Bool) (r : Registry T) (id : Handle) (value : T) :
    PResult (Registry T) T :=
  match IdentityManager.free_handle debug r.identity id with
  | .ok m _ => .ok { r with identity := m } value
  | .panic m => .panic { r with identity := m }

/-- Rust `Registry::unregister`: remove the entry from storage (panicking on a
missing entry or an epoch mismatch — note the removal precedes the epoch
assertion), then free the index in the identity manager. -/
def unregister (debug : Bool) (r : Registry T) (id : Handle) : PResult (Registry T) T :=
  let rm := r.data.remove id.index
  match rm.2 with
  | none => .panic { r with data := rm.1 }
  | some (value, epoch) =>
    if epoch = id.epoch then
      match IdentityManager.free_handle debug r.identity id with
      | .ok m _ => .ok { identity := m, data := rm.1 } value
      | .panic m => .panic { identity := m, data := rm.1 }
    else .panic { r with data := rm.1 }

end Registry

/-- The value returned by an operation, when it succeeded. -/
def PResult.val? : PResult σ α → Option α
  | .ok _ a => some a
  | .panic _ => none

/-- The state an operation left behind (final state on success, the state
at the moment of the panic on failure). -/
def PResult.state : PResult σ α → σ
  | .ok s _ => s
  | .panic s => s

/-- The allocator invariant maintained by checked use: the free list holds
no duplicate indices and every free-listed index has a slot in the epoch
table. -/
def GoodIM (m : IdentityManager) : Prop :=
  m.free.Nodup ∧ ∀ i ∈ m.free, i < m.epochs.length

/-- IdentityManager states reachable from the default (empty) state by
successful alloc and free operations, with free run under the
debug-checked semantics: the debug assertion is exactly the double-free
check that defines legitimate use of the allocator. -/
inductive Reachable : IdentityManager → Prop
  | init : Reachable ⟨[], []⟩
  | step_alloc {m m1 : IdentityManager} {h1 : Handle} :
      Reachable m → m.alloc = .ok m1 h1 → Reachable m1
  | step_free {m m1 : IdentityManager} {id : Handle} :
      Reachable m → IdentityManager.free_handle true m id = .ok m1 () → Reachable m1

/-- The state and handles produced by n successive alloc calls (stopping
early if an alloc panics, which cannot happen from a well-formed
state). -/
def allocSeq (m : IdentityManager) : Nat → IdentityManager × List Handle
  | 0 => (m, [])
  | n + 1 =>
    match m.alloc with
    | .ok m1 h1 => ((allocSeq m1 n).1, h1 :: (allocSeq m1 n).2)
    | .panic m1 => (m1, [])

theorem lt_length_of_getElem?_some {l : List α} {i : Nat} {x : α}
    (h : l[i]? = some x) : i < l.length := by
  by_contra hc
  rw [List.getElem?_eq_none (Nat.le_of_not_lt hc)] at h
  exact Option.noConfusion h

namespace Storage

theorem insert_snd {T : Type} (s : Storage T) (i : Nat) (v : T × Epoch) :
    (s.insert i v).2 = s.liveAt i := rfl

theorem liveAt_insert_self {T : Type} (s : Storage T) (i : Nat) (v : T × Epoch) :
    ((s.insert i v).1).liveAt i = some v := by
  have hlen : i < (s.map ++ List.replicate (i + 1 - s.map.length) (none : Option (T × Epoch))).length := by
    simp only [List.length_append, List.length_replicate]
    omega
  simp only [Storage.insert, Storage.liveAt]
  rw [List.getElem?_set_self hlen]
  rfl

theorem liveAt_insert_ne {T : Type} (s : Storage T) (i j : Nat) (v : T × Epoch)
    (hne : j ≠ i) : ((s.insert i v).1).liveAt j = s.liveAt j := by
  simp only [Storage.insert, Storage.liveAt]
  rw [List.getElem?_set_ne (Ne.symm hne)]
  by_cases hj : j < s.map.length
  · rw [List.getElem?_append_left hj]
  · rw [List.getElem?_append_right (Nat.le_of_not_lt hj),
      List.getElem?_eq_none (Nat.le_of_not_lt hj)]
    rw [List.getElem?_replicate]
    split <;> rfl

theorem remove_snd {T : Type} (s : Storage T) (i : Nat) :
    (s.remove i).2 = s.liveAt i := by
  cases hm : s.map[i]? with
  | none => simp [Storage.remove, Storage.liveAt, hm]
  | some o =>
    cases o with
    | none => simp [Storage.remove, Storage.liveAt, hm]
    | some v => simp [Storage.remove, Storage.liveAt, hm]

theorem liveAt_remove_self {T : Type} (s : Storage T) (i : Nat) :
    ((s.remove i).1).liveAt i = none := by
  cases hm : s.map[i]? with
  | none => simp [Storage.remove, Storage.liveAt, hm]
  | some o =>
    cases o with
    | none => simp [Storage.remove, Storage.liveAt, hm]
    | some v =>
      have hi : i < s.map.length := lt_length_of_getElem?_some hm
      simp [Storage.remove, Storage.liveAt, hm, List.getElem?_set_self hi]

theorem liveAt_remove_ne {T : Type} (s : Storage T) (i j : Nat) (hne : j ≠ i) :
    ((s.remove i).1).liveAt j = s.liveAt j := by
  cases hm : s.map[i]? with
  | none => simp [Storage.remove, Storage.liveAt, hm]
  | some o =>
    cases o with
    | none => simp [Storage.remove, Storage.liveAt, hm]
    | some v =>
      simp [Storage.remove, Storage.liveAt, hm, List.getElem?_set_ne (Ne.symm hne)]

end Storage

namespace IdentityManager

theorem alloc_ok_inv {m m1 : IdentityManager} {h1 : Handle}
    (h : m.alloc = .ok m1 h1) :
    (∃ rest, m.free = h1.index :: rest ∧ m1 = ⟨rest, m.epochs⟩ ∧
      m.epochs[h1.index]? = some h1.epoch) ∨
    (m.free = [] ∧ m1 = ⟨[], m.epochs ++ [1]⟩ ∧ h1 = ⟨m.epochs.length, 1⟩) := by
  obtain ⟨mf, me⟩ := m
  cases mf with
  | nil =>
    simp only [alloc] at h
    injection h with hA hB
    exact Or.inr ⟨rfl, hA.symm, hB.symm⟩
  | cons i rest =>
    simp only [alloc] at h
    cases he : me[i]? with
    | none => rw [he] at h; exact absurd h (by simp)
    | some e =>
      rw [he] at h
      injection h with hA hB
      subst hA
      subst hB
      exact Or.inl ⟨rest, rfl, rfl, he⟩

theorem free_handle_ok_inv {debug : Bool} {m m1 : IdentityManager} {id : Handle}
    (h : free_handle debug m id = .ok m1 ()) :
    m.epochs[id.index]? = some id.epoch ∧
    (debug = true → id.index ∉ m.free) ∧
    m1 = ⟨id.index :: m.free, m.epochs.set id.index (id.epoch + 1)⟩ := by
  unfold free_handle at h
  split at h
  · exact absurd h (by simp)
  · rename_i h1
    split at h
    · exact absurd h (by simp)
    · rename_i pe he
      split at h
      · rename_i h2
        subst h2
        injection h with hA
        exact ⟨he, fun hd hmem => h1 ⟨hd, hmem⟩, hA.symm⟩
      · exact absurd h (by simp)

theorem free_handle_ok (debug : Bool) (m : IdentityManager) (id : Handle)
    (hmem : debug = true → id.index ∉ m.free)
    (hep : m.epochs[id.index]? = some id.epoch) :
    free_handle debug m id =
      .ok ⟨id.index :: m.free, m.epochs.set id.index (id.epoch + 1)⟩ () := by
  unfold free_handle
  rw [if_neg fun hc => hmem hc.1 hc.2, hep]
  simp

end IdentityManager

/-- Claim C4: IdentityManager::alloc never fails and behaves exactly as
specified: with a non-empty free list it pops the index `i` and returns
the handle `(i, epochs[i])` leaving `epochs` unchanged; with an empty
free list it appends a fresh slot with epoch 1 and returns the handle
`(previous length of epochs, 1)`.  The hypothesis is the allocator
invariant that every free-listed index has a slot in `epochs`. -/
theorem alloc_spec (m : IdentityManager)
    (hinv : ∀ i ∈ m.free, i < m.epochs.length) :
    m.alloc = match m.free with
      | i :: rest => .ok ⟨rest, m.epochs⟩ ⟨i, m.epochs.getD i 0⟩
      | [] => .ok ⟨[], m.epochs ++ [1]⟩ ⟨m.epochs.length, 1⟩ := by
  cases hf : m.free with
  | nil =>
    simp only [IdentityManager.alloc, hf]
  | cons i rest =>
    have hi : i < m.epochs.length := hinv i (by rw [hf]; exact List.mem_cons_self i rest)
    have hgd : m.epochs.getD i 0 = m.epochs[i] := List.getD_eq_getElem m.epochs 0 hi
    simp only [IdentityManager.alloc, hf, List.getElem?_eq_getElem hi, hgd]

/-- Witness for C4: both hypotheses discharged at concrete allocators,
exercising the pop branch. -/
theorem alloc_spec_witness :
    IdentityManager.alloc ⟨[0], [3]⟩ = .ok ⟨[], [3]⟩ ⟨0, 3⟩ :=
  alloc_spec ⟨[0], [3]⟩ (by decide)

/-- Claim C5: IdentityManager::free succeeds exactly when the slot's
current epoch equals the handle's epoch and (in debug builds only) the
index is not already on the free list; on success it increments that
slot's epoch by exactly 1 and pushes the index onto the free list, and
in every other case it fails fatally leaving the state unchanged. -/
theorem free_handle_spec (debug : Bool) (m : IdentityManager) (id : Handle) :
    IdentityManager.free_handle debug m id =
      if m.epochs[id.index]? = some id.epoch ∧ ¬(debug = true ∧ id.index ∈ m.free) then
        .ok ⟨id.index :: m.free, m.epochs.set id.index (id.epoch + 1)⟩ ()
      else .panic m := by
  by_cases h1 : debug = true ∧ id.index ∈ m.free
  · simp [IdentityManager.free_handle, h1]
  · cases he : m.epochs[id.index]? with
    | none => simp [IdentityManager.free_handle, h1, he]
    | some pe =>
      by_cases h2 : pe = id.epoch
      · subst h2
        simp [IdentityManager.free_handle, h1, he]
      · simp [IdentityManager.free_handle, h1, he, h2]

/-- Claim C6: Registry::register stores the payload at the handle's index
together with the handle's epoch, and fails with an assertion-level
fatal error whenever a live entry already exists at that index (the
insertion having already overwritten the slot when the assertion
fires). -/
theorem register_spec {T : Type} (r : Registry T) (id : Handle) (v : T) :
    if (r.data.liveAt id.index).isSome then
      r.register id v = .panic { r with data := (r.data.insert id.index (v, id.epoch)).1 }
    else
      r.register id v = .ok { r with data := (r.data.insert id.index (v, id.epoch)).1 } () ∧
      ((r.data.insert id.index (v, id.epoch)).1).liveAt id.index = some (v, id.epoch) := by
  have hsnd := Storage.insert_snd r.data id.index (v, id.epoch)
  cases ho : r.data.liveAt id.index with
  | some w =>
    simp [Registry.register, hsnd, ho]
  | none =>
    refine ⟨by simp [Registry.register, hsnd, ho], ?_⟩
    exact Storage.liveAt_insert_self r.data id.index (v, id.epoch)

namespace IdentityManager

theorem free_handle_panic_inv {debug : Bool} {m m1 : IdentityManager} {id : Handle}
    (h : free_handle debug m id = .panic m1) : m1 = m := by
  unfold free_handle at h
  split at h
  · injection h with hA; exact hA.symm
  · split at h
    · injection h with hA; exact hA.symm
    · split at h
      · exact absurd h (by simp)
      · injection h with hA; exact hA.symm

end IdentityManager

namespace Registry

theorem register_ok_inv {T : Type} {r r1 : Registry T} {id : Handle} {v : T} {u : Unit}
    (h : r.register id v = .ok r1 u) :
    r1.identity = r.identity ∧ r1.data = (r.data.insert id.index (v, id.epoch)).1 ∧
    r.data.liveAt id.index = none := by
  simp only [Registry.register] at h
  split at h
  · rename_i hins
    injection h with hA
    refine ⟨by rw [← hA], by rw [← hA], ?_⟩
    rw [← Storage.insert_snd r.data id.index (v, id.epoch)]
    exact hins
  · exact absurd h (by simp)

theorem register_panic_inv {T : Type} {r r1 : Registry T} {id : Handle} {v : T}
    (h : r.register id v = .panic r1) :
    r1.identity = r.identity ∧ r1.data = (r.data.insert id.index (v, id.epoch)).1 := by
  simp only [Registry.register] at h
  split at h
  · exact absurd h (by simp)
  · injection h with hA
    exact ⟨by rw [← hA], by rw [← hA]⟩

theorem unregister_ok_inv {T : Type} {debug : Bool} {r r1 : Registry T} {id : Handle} {p : T}
    (h : Registry.unregister debug r id = .ok r1 p) :
    r.data.liveAt id.index = some (p, id.epoch) ∧
    IdentityManager.free_handle debug r.identity id = .ok r1.identity () ∧
    r1.data = (r.data.remove id.index).1 := by
  simp only [Registry.unregister] at h
  split at h
  · exact absurd h (by simp)
  · rename_i value epoch hrm
    split at h
    · rename_i h2
      subst h2
      split at h
      · rename_i m u hfh
        injection h with hA hB
        subst hB
        refine ⟨?_, ?_, ?_⟩
        · rw [← Storage.remove_snd r.data id.index]
          exact hrm
        · rw [← hA]
          exact hfh
        · rw [← hA]
      · exact absurd h (by simp)
    · exact absurd h (by simp)

theorem unregister_panic_inv {T : Type} {debug : Bool} {r r1 : Registry T} {id : Handle}
    (h : Registry.unregister debug r id = .panic r1) :
    r1.identity = r.identity ∧ r1.data = (r.data.remove id.index).1 := by
  simp only [Registry.unregister] at h
  split at h
  · injection h with hA
    exact ⟨by rw [← hA], by rw [← hA]⟩
  · split at h
    · split at h
      · exact absurd h (by simp)
      · rename_i m hfh
        injection h with hA
        have hm := IdentityManager.free_handle_panic_inv hfh
        exact ⟨by rw [← hA, hm], by rw [← hA]⟩
    · injection h with hA
      exact ⟨by rw [← hA], by rw [← hA]⟩

theorem register_local_panic_inv {T : Type} {r r1 : Registry T} {v : T}
    (h : Registry.register_local r v = .panic r1) :
    ∃ i, ∀ j, j ≠ i → r1.data.liveAt j = r.data.liveAt j := by
  simp only [Registry.register_local] at h
  split at h
  · rename_i m halloc
    injection h with hA
    exact ⟨0, fun j hj => by rw [← hA]⟩
  · rename_i m id halloc
    split at h
    · exact absurd h (by simp)
    · rename_i r2 hreg
      injection h with hA
      obtain ⟨_, hdata⟩ := Registry.register_panic_inv hreg
      refine ⟨id.index, fun j hj => ?_⟩
      rw [← hA, hdata]
      exact Storage.liveAt_insert_ne _ id.index j (v, id.epoch) hj

end Registry

/-- Claim C10: Registry::register and a successful Registry::unregister
modify only the storage entry at the handle's index: every other index
keeps its (payload, epoch) entry, so lookup through any handle with a
different index is unaffected; moreover register leaves the identity
manager entirely unchanged. -/
theorem register_unregister_frame {T : Type} (debug : Bool) (r : Registry T)
    (id : Handle) (v : T) :
    (∀ r1, r.register id v = .ok r1 () →
      r1.identity = r.identity ∧
      (∀ j, j ≠ id.index → r1.data.liveAt j = r.data.liveAt j) ∧
      (∀ h2 : Handle, h2.index ≠ id.index → r1.data.index h2 = r.data.index h2)) ∧
    (∀ r1 p, Registry.unregister debug r id = .ok r1 p →
      (∀ j, j ≠ id.index → r1.data.liveAt j = r.data.liveAt j) ∧
      (∀ h2 : Handle, h2.index ≠ id.index → r1.data.index h2 = r.data.index h2)) := by
  constructor
  · intro r1 hok
    obtain ⟨hid, hdata, _⟩ := Registry.register_ok_inv hok
    refine ⟨hid, fun j hj => ?_, fun h2 hj => ?_⟩
    · rw [hdata]
      exact Storage.liveAt_insert_ne r.data id.index j (v, id.epoch) hj
    · unfold Storage.index
      rw [hdata, Storage.liveAt_insert_ne r.data id.index h2.index (v, id.epoch) hj]
  · intro r1 p hok
    obtain ⟨_, _, hdata⟩ := Registry.unregister_ok_inv hok
    refine ⟨fun j hj => ?_, fun h2 hj => ?_⟩
    · rw [hdata]
      exact Storage.liveAt_remove_ne r.data id.index j hj
    · unfold Storage.index
      rw [hdata, Storage.liveAt_remove_ne r.data id.index h2.index hj]

/-- Witness for C10: the frame conclusions instantiated on a concrete
successful register (empty registry) and a concrete successful
unregister, at untouched index values. -/
theorem register_unregister_frame_witness :
    (⟨[some (7, 1)]⟩ : Storage Nat).liveAt 3 = (⟨[]⟩ : Storage Nat).liveAt 3 ∧
    Storage.index (⟨[none]⟩ : Storage Nat) ⟨1, 1⟩ =
      Storage.index (⟨[some (42, 1)]⟩ : Storage Nat) ⟨1, 1⟩ := by
  constructor
  · exact ((register_unregister_frame true ⟨⟨[], []⟩, ⟨[]⟩⟩ ⟨0, 1⟩ 7).1
      ⟨⟨[], []⟩, ⟨[some (7, 1)]⟩⟩ (by decide)).2.1 3 (by decide)
  · exact ((register_unregister_frame true ⟨⟨[], [1]⟩, ⟨[some (42, 1)]⟩⟩ ⟨0, 1⟩ 0).2
      ⟨⟨[0], [2]⟩, ⟨[none]⟩⟩ 42 (by decide)).2 ⟨1, 1⟩ (by decide)

/-- Claim C2 counterexample: an unregister that fails on an epoch mismatch
(entry at index 0 holds epoch 1, the handle carries epoch 2) has already
removed the storage entry when the fatal assertion fires, so a failing
compound operation does not leave the storage unchanged. -/
theorem unregister_failure_mutates_storage :
    Registry.unregister false (⟨⟨[], [1]⟩, ⟨[some (5, 1)]⟩⟩ : Registry Nat) ⟨0, 2⟩ =
      .panic ⟨⟨[], [1]⟩, ⟨[none]⟩⟩ ∧
    (⟨[none]⟩ : Storage Nat) ≠ (⟨[some (5, 1)]⟩ : Storage Nat) :=
  ⟨by decide, by decide⟩

/-- Claim C2 (amended): a failing register or unregister leaves the
identity manager unchanged and every storage index other than the
operation's target unchanged, but the target slot's mutation has already
happened when the failure fires — a failing register has overwritten the
slot with the new payload and epoch, and a failing unregister has
removed whatever entry was at the handle's index; a failing
register_local affects at most its one allocated storage index but may
have mutated the identity manager. -/
theorem failing_ops_effects {T : Type} (debug : Bool) (r : Registry T)
    (id : Handle) (v : T) :
    (∀ r1, r.register id v = .panic r1 →
      r1.identity = r.identity ∧
      r1.data.liveAt id.index = some (v, id.epoch) ∧
      (∀ j, j ≠ id.index → r1.data.liveAt j = r.data.liveAt j)) ∧
    (∀ r1, Registry.unregister debug r id = .panic r1 →
      r1.identity = r.identity ∧
      r1.data.liveAt id.index = none ∧
      (∀ j, j ≠ id.index → r1.data.liveAt j = r.data.liveAt j)) ∧
    (∀ r1, Registry.register_local r v = .panic r1 →
      ∃ i, ∀ j, j ≠ i → r1.data.liveAt j = r.data.liveAt j) := by
  refine ⟨fun r1 hp => ?_, fun r1 hp => ?_, fun r1 hp => Registry.register_local_panic_inv hp⟩
  · obtain ⟨hid, hdata⟩ := Registry.register_panic_inv hp
    refine ⟨hid, ?_, fun j hj => ?_⟩
    · rw [hdata]
      exact Storage.liveAt_insert_self r.data id.index (v, id.epoch)
    · rw [hdata]
      exact Storage.liveAt_insert_ne r.data id.index j (v, id.epoch) hj
  · obtain ⟨hid, hdata⟩ := Registry.unregister_panic_inv hp
    refine ⟨hid, ?_, fun j hj => ?_⟩
    · rw [hdata]
      exact Storage.liveAt_remove_self r.data id.index
    · rw [hdata]
      exact Storage.liveAt_remove_ne r.data id.index j hj

/-- Witness for C2's amended theorem: its unregister clause instantiated on
the epoch-mismatch failure of the counterexample state. -/
theorem failing_ops_effects_witness :
    (⟨⟨[], [1]⟩, ⟨[none]⟩⟩ : Registry Nat).identity = ⟨[], [1]⟩ ∧
    (⟨[none]⟩ : Storage Nat).liveAt 0 = none := by
  have hh := (failing_ops_effects false (⟨⟨[], [1]⟩, ⟨[some (5, 1)]⟩⟩ : Registry Nat)
    ⟨0, 2⟩ 9).2.1 ⟨⟨[], [1]⟩, ⟨[none]⟩⟩ (by decide)
  exact ⟨hh.1, hh.2.1⟩

/-- Claim C1: once a handle is stale — the identity manager's current epoch
for its index is strictly greater than the handle's epoch, as it is
after that handle was freed, and any live storage entry at that index
carries the current epoch (as it does when the index was reallocated and
re-registered with a newer epoch, or when no entry exists at all) —
every operation on the handle fails with a fatal integrity violation:
storage lookup via Index and IndexMut, IdentityManager::free, and
Registry::unregister. -/
theorem stale_handle_rejection {T : Type} (debug : Bool) (r : Registry T)
    (h : Handle) (e : Epoch)
    (hep : r.identity.epochs[h.index]? = some e)
    (hstale : h.epoch < e)
    (hag : Option.all (fun w => w.2 == e) (r.data.liveAt h.index) = true) :
    r.data.index h = none ∧
    (∀ f, r.data.index_mut h f = none) ∧
    IdentityManager.free_handle debug r.identity h = .panic r.identity ∧
    Registry.unregister debug r h = .panic { r with data := (r.data.remove h.index).1 } := by
  have hne : ∀ w : T × Epoch, r.data.liveAt h.index = some w → ¬(w.2 = h.epoch) := by
    intro w hw heq
    rw [hw] at hag
    have he2 : w.2 = e := by simpa [Option.all] using hag
    rw [heq] at he2
    exact Nat.ne_of_lt hstale he2
  refine ⟨?_, ?_, ?_, ?_⟩
  · unfold Storage.index
    cases hw : r.data.liveAt h.index with
    | none => rfl
    | some w =>
      rcases w with ⟨value, epoch⟩
      simp [hne _ hw]
  · intro f
    unfold Storage.index_mut
    cases hw : r.data.liveAt h.index with
    | none => rfl
    | some w =>
      rcases w with ⟨value, epoch⟩
      simp [hne _ hw]
  · unfold IdentityManager.free_handle
    split
    · rfl
    · rw [hep]
      have hee : ¬(e = h.epoch) := fun hc => Nat.ne_of_lt hstale hc.symm
      simp [hee]
  · simp only [Registry.unregister]
    rw [Storage.remove_snd r.data h.index]
    cases hw : r.data.liveAt h.index with
    | none => rfl
    | some w =>
      rcases w with ⟨value, epoch⟩
      simp [hne _ hw]

/-- Witness for C1: a stale handle (index 0, epoch 1) against a registry
whose index 0 was reallocated and re-registered at epoch 2; lookup,
mutable lookup, free and unregister all fail. -/
theorem stale_handle_rejection_witness :
    Storage.index (⟨[some (7, 2)]⟩ : Storage Nat) ⟨0, 1⟩ = none ∧
    Storage.index_mut (⟨[some (7, 2)]⟩ : Storage Nat) ⟨0, 1⟩ (fun x => x + 1) = none ∧
    IdentityManager.free_handle true ⟨[], [2]⟩ ⟨0, 1⟩ = .panic ⟨[], [2]⟩ ∧
    Registry.unregister true (⟨⟨[], [2]⟩, ⟨[some (7, 2)]⟩⟩ : Registry Nat) ⟨0, 1⟩ =
      .panic ⟨⟨[], [2]⟩, ⟨[none]⟩⟩ := by
  have hh := stale_handle_rejection true (⟨⟨[], [2]⟩, ⟨[some (7, 2)]⟩⟩ : Registry Nat)
    ⟨0, 1⟩ 2 (by decide) (by decide) (by decide)
  exact ⟨hh.1, hh.2.1 _, hh.2.2.1, hh.2.2.2⟩

namespace Registry

theorem register_local_ok_inv {T : Type} {r r1 : Registry T} {v : T} {id : Handle}
    (h : Registry.register_local r v = .ok r1 id) :
    ∃ m, r.identity.alloc = .ok m id ∧
      Registry.register { identity := m, data := r.data } id v = .ok r1 () := by
  simp only [Registry.register_local] at h
  split at h
  · exact absurd h (by simp)
  · rename_i m id0 halloc
    split at h
    · rename_i r2 u hreg
      injection h with hA hB
      subst hA
      subst hB
      exact ⟨m, halloc, hreg⟩
    · exact absurd h (by simp)

theorem removePhase_ok_inv {T : Type} {r rm : Registry T} {id : Handle} {p : T}
    (h : Registry.removePhase r id = .ok rm p) :
    r.data.liveAt id.index = some (p, id.epoch) ∧
    rm = { r with data := (r.data.remove id.index).1 } := by
  simp only [Registry.removePhase] at h
  split at h
  · exact absurd h (by simp)
  · rename_i value epoch hrm
    split at h
    · rename_i h2
      subst h2
      injection h with hA hB
      subst hB
      refine ⟨?_, hA.symm⟩
      rw [← Storage.remove_snd r.data id.index]
      exact hrm
    · exact absurd h (by simp)

end Registry

/-- Claim C3: from any registry state, a successful register_local of a
payload p returning the handle h satisfies the round trip: looking h up
yields p, unregistering h succeeds and returns p, and after that
unregister looking h up fails.  In a debug build the round trip
additionally relies on the free list holding no duplicate indices, an
invariant the debug assertions themselves maintain; release builds need
no hypothesis at all. -/
theorem register_local_round_trip {T : Type} (debug : Bool) (r r1 : Registry T)
    (p : T) (h : Handle)
    (hreg : Registry.register_local r p = .ok r1 h)
    (hnd : debug = true → r.identity.free.Nodup) :
    r1.data.index h = some p ∧
    (Registry.unregister debug r1 h).val? = some p ∧
    ((Registry.unregister debug r1 h).state).data.index h = none := by
  obtain ⟨m, halloc, hreg2⟩ := Registry.register_local_ok_inv hreg
  obtain ⟨hid1, hdata1, hnone⟩ := Registry.register_ok_inv hreg2
  simp only at hid1
  have hlive : r1.data.liveAt h.index = some (p, h.epoch) := by
    rw [hdata1]
    exact Storage.liveAt_insert_self r.data h.index (p, h.epoch)
  have hepm : m.epochs[h.index]? = some h.epoch := by
    rcases IdentityManager.alloc_ok_inv halloc with ⟨rest, hfr, hm, hep⟩ | ⟨hfr, hm, hh⟩
    · rw [hm]
      exact hep
    · subst hh
      rw [hm]
      simp [List.getElem?_append_right (Nat.le_refl r.identity.epochs.length)]
  have hmem : debug = true → h.index ∉ m.free := by
    intro hd
    rcases IdentityManager.alloc_ok_inv halloc with ⟨rest, hfr, hm, hep⟩ | ⟨hfr, hm, hh⟩
    · have hnd2 := hnd hd
      rw [hfr] at hnd2
      rw [hm]
      exact (List.nodup_cons.mp hnd2).1
    · rw [hm]
      simp
  have hmf := IdentityManager.free_handle_ok debug m h hmem hepm
  have huneq : Registry.unregister debug r1 h =
      .ok ⟨⟨h.index :: m.free, m.epochs.set h.index (h.epoch + 1)⟩,
        (r1.data.remove h.index).1⟩ p := by
    simp only [Registry.unregister]
    rw [Storage.remove_snd r1.data h.index, hlive]
    simp [hid1, hmf]
  refine ⟨?_, ?_, ?_⟩
  · unfold Storage.index
    rw [hlive]
    simp
  · rw [huneq]
    rfl
  · rw [huneq]
    simp only [PResult.state]
    unfold Storage.index
    rw [Storage.liveAt_remove_self r1.data h.index]

/-- Witness for C3: the round trip observed concretely starting from the
empty registry with payload 42 in a debug build. -/
theorem register_local_round_trip_witness :
    Storage.index (⟨[some (42, 1)]⟩ : Storage Nat) ⟨0, 1⟩ = some 42 ∧
    (Registry.unregister true (⟨⟨[], [1]⟩, ⟨[some (42, 1)]⟩⟩ : Registry Nat) ⟨0, 1⟩).val? =
      some 42 ∧
    ((Registry.unregister true (⟨⟨[], [1]⟩, ⟨[some (42, 1)]⟩⟩ : Registry Nat) ⟨0, 1⟩).state).data.index
      ⟨0, 1⟩ = none :=
  register_local_round_trip true ⟨⟨[], []⟩, ⟨[]⟩⟩ ⟨⟨[], [1]⟩, ⟨[some (42, 1)]⟩⟩ 42 ⟨0, 1⟩
    (by decide) (fun _ => List.nodup_nil)

/-- Claim C9: Registry::unregister is exactly the storage-removal phase
(the storage write-lock critical section, which removes the payload and
checks the epoch) followed by the identity-free phase (the identity-lock
critical section returning the index to the free list) — in that order;
and in the intermediate state after a successful removal, before the
index is freed, a lookup of any handle at that index fails and an
allocation cannot return that index, so no thread can observe a reused
slot's payload in the window (the index is live, hence not free-listed,
and within the epoch table). -/
theorem unregister_ordering {T : Type} (debug : Bool) (r rm : Registry T)
    (id : Handle) (p : T)
    (hmem : id.index ∉ r.identity.free)
    (hlen : id.index < r.identity.epochs.length)
    (hphase : Registry.removePhase r id = .ok rm p) :
    Registry.unregister debug r id = Registry.freePhase debug rm id p ∧
    (∀ h2 : Handle, h2.index = id.index → rm.data.index h2 = none) ∧
    (∀ m1 h2, rm.identity.alloc = .ok m1 h2 → h2.index ≠ id.index) := by
  obtain ⟨hlive, hrm⟩ := Registry.removePhase_ok_inv hphase
  have hrmid : rm.identity = r.identity := by rw [hrm]
  have hrmdata : rm.data = (r.data.remove id.index).1 := by rw [hrm]
  refine ⟨?_, ?_, ?_⟩
  · cases hfh : IdentityManager.free_handle debug r.identity id with
    | ok m u =>
      simp [Registry.unregister, Registry.freePhase, Storage.remove_snd, hlive,
        hrmid, hrmdata, hfh]
    | panic m =>
      simp [Registry.unregister, Registry.freePhase, Storage.remove_snd, hlive,
        hrmid, hrmdata, hfh]
  · intro h2 hh2
    unfold Storage.index
    rw [hh2, hrmdata, Storage.liveAt_remove_self r.data id.index]
  · intro m1 h2 halloc
    rw [hrmid] at halloc
    rcases IdentityManager.alloc_ok_inv halloc with ⟨rest, hfr, _, _⟩ | ⟨_, _, hh⟩
    · intro hceq
      apply hmem
      rw [← hceq, hfr]
      exact List.mem_cons_self _ _
    · intro hceq
      rw [hh] at hceq
      simp only at hceq
      exact Nat.ne_of_gt hlen hceq

/-- Witness for C9: a registry holding payload 9 at index 0 epoch 1; the
removal phase succeeds, unregister factors through the two phases, the
intermediate lookup at index 0 fails, and the next allocation from the
intermediate state returns index 1, not 0. -/
theorem unregister_ordering_witness :
    Registry.unregister true (⟨⟨[], [1]⟩, ⟨[some (9, 1)]⟩⟩ : Registry Nat) ⟨0, 1⟩ =
      Registry.freePhase true ⟨⟨[], [1]⟩, ⟨[none]⟩⟩ ⟨0, 1⟩ 9 ∧
    Storage.index (⟨[none]⟩ : Storage Nat) ⟨0, 1⟩ = none ∧
    (1 : Index) ≠ 0 := by
  have hh := unregister_ordering true (⟨⟨[], [1]⟩, ⟨[some (9, 1)]⟩⟩ : Registry Nat)
    ⟨⟨[], [1]⟩, ⟨[none]⟩⟩ ⟨0, 1⟩ 9 (by decide) (by decide) (by decide)
  exact ⟨hh.1, hh.2.1 ⟨0, 1⟩ rfl, hh.2.2 ⟨[], [1, 1]⟩ ⟨1, 1⟩ (by decide)⟩

theorem alloc_panic_epochs {m m1 : IdentityManager} (h : m.alloc = .panic m1) :
    m1.epochs = m.epochs := by
  unfold IdentityManager.alloc at h
  split at h
  · split at h
    · exact absurd h (by simp)
    · injection h with hA
      rw [← hA]
  · exact absurd h (by simp)

/-- Claim C8: per-index epochs only ever grow, one unit per successful
free: a fresh slot starts at epoch 1 (alloc either leaves the epoch
table unchanged or appends a single slot holding 1, which is the epoch
of the returned handle), a successful free of a handle bumps exactly
that handle's slot from the handle's epoch to the handle's epoch plus 1
and leaves every other slot unchanged, and no failing operation changes
any epoch — so the epochs carried by successive handles allocated at any
fixed index are strictly increasing. -/
theorem epoch_evolution :
    (∀ (m m1 : IdentityManager) (h1 : Handle), m.alloc = .ok m1 h1 →
      m1.epochs = m.epochs ∨
      (m1.epochs = m.epochs ++ [1] ∧ h1.epoch = 1 ∧ h1.index = m.epochs.length)) ∧
    (∀ m m1 : IdentityManager, m.alloc = .panic m1 → m1.epochs = m.epochs) ∧
    (∀ (debug : Bool) (m m1 : IdentityManager) (id : Handle),
      IdentityManager.free_handle debug m id = .ok m1 () →
      m.epochs[id.index]? = some id.epoch ∧
      m1.epochs[id.index]? = some (id.epoch + 1) ∧
      ∀ j, j ≠ id.index → m1.epochs[j]? = m.epochs[j]?) ∧
    (∀ (debug : Bool) (m m1 : IdentityManager) (id : Handle),
      IdentityManager.free_handle debug m id = .panic m1 → m1.epochs = m.epochs) := by
  refine ⟨?_, ?_, ?_, ?_⟩
  · intro m m1 h1 h
    rcases IdentityManager.alloc_ok_inv h with ⟨rest, hfr, hm, hep⟩ | ⟨hfr, hm, hh⟩
    · left
      rw [hm]
    · right
      rw [hm, hh]
      exact ⟨rfl, rfl, rfl⟩
  · exact fun m m1 h => alloc_panic_epochs h
  · intro debug m m1 id h
    obtain ⟨hep, _, hm1⟩ := IdentityManager.free_handle_ok_inv h
    have hlt : id.index < m.epochs.length := lt_length_of_getElem?_some hep
    refine ⟨hep, ?_, fun j hj => ?_⟩
    · rw [hm1]
      simpa using List.getElem?_set_self (by simpa using hlt)
    · rw [hm1]
      exact List.getElem?_set_ne (fun hc => hj hc.symm)
  · intro debug m m1 id h
    rw [IdentityManager.free_handle_panic_inv h]

/-- Witness for C8: the free clause instantiated on freeing handle
(0, 1) in an allocator with one slot at epoch 1, bumping the slot to
epoch 2. -/
theorem epoch_evolution_witness :
    ([1] : List Epoch)[0]? = some 1 ∧ ([2] : List Epoch)[0]? = some (1 + 1) := by
  have hh := epoch_evolution.2.2.1 true ⟨[], [1]⟩ ⟨[0], [2]⟩ ⟨0, 1⟩ (by decide)
  exact ⟨hh.1, hh.2.1⟩

theorem alloc_step_good (m : IdentityManager) (hg : GoodIM m) :
    ∃ m1 h1, m.alloc = .ok m1 h1 ∧ GoodIM m1 ∧
      (∀ x ∈ m1.free, x ∈ m.free) ∧ m.epochs.length ≤ m1.epochs.length ∧
      h1.index ∉ m1.free ∧ h1.index < m1.epochs.length ∧
      (h1.index ∈ m.free ∨ m.epochs.length ≤ h1.index) := by
  obtain ⟨mf, me⟩ := m
  obtain ⟨hnd, hlt⟩ := hg
  cases mf with
  | nil =>
    refine ⟨⟨[], me ++ [1]⟩, ⟨me.length, 1⟩, rfl, ⟨List.nodup_nil, by simp⟩,
      by simp, by simp, by simp, ?_, Or.inr (Nat.le_refl _)⟩
    simp [List.length_append]
  | cons i rest =>
    have hi : i < me.length := hlt i (List.mem_cons_self i rest)
    refine ⟨⟨rest, me⟩, ⟨i, me[i]⟩, ?_, ?_, ?_, Nat.le_refl _, ?_, hi, ?_⟩
    · simp [IdentityManager.alloc, List.getElem?_eq_getElem hi]
    · exact ⟨(List.nodup_cons.mp hnd).2, fun x hx => hlt x (List.mem_cons_of_mem i hx)⟩
    · exact fun x hx => List.mem_cons_of_mem i hx
    · exact (List.nodup_cons.mp hnd).1
    · exact Or.inl (List.mem_cons_self i rest)

theorem allocSeq_spec (n : Nat) : ∀ m : IdentityManager, GoodIM m →
    GoodIM (allocSeq m n).1 ∧
    (∀ x ∈ (allocSeq m n).1.free, x ∈ m.free) ∧
    m.epochs.length ≤ (allocSeq m n).1.epochs.length ∧
    ((allocSeq m n).2).Pairwise (fun a b => a.index ≠ b.index) ∧
    ∀ h1 ∈ (allocSeq m n).2,
      (h1.index ∈ m.free ∨ m.epochs.length ≤ h1.index) ∧
      h1.index ∉ (allocSeq m n).1.free ∧
      h1.index < (allocSeq m n).1.epochs.length := by
  induction n with
  | zero =>
    intro m hg
    exact ⟨hg, fun x hx => hx, Nat.le_refl _, List.Pairwise.nil, by simp [allocSeq]⟩
  | succ n ih =>
    intro m hg
    obtain ⟨m1, h1, halloc, hg1, hsub1, hlen1, hnm1, hlt1, hsrc1⟩ := alloc_step_good m hg
    obtain ⟨hgN, hsubN, hlenN, hpwN, hmemN⟩ := ih m1 hg1
    have hstep : allocSeq m (n + 1) = ((allocSeq m1 n).1, h1 :: (allocSeq m1 n).2) := by
      simp [allocSeq, halloc]
    rw [hstep]
    refine ⟨hgN, fun x hx => hsub1 x (hsubN x hx), Nat.le_trans hlen1 hlenN, ?_, ?_⟩
    · rw [List.pairwise_cons]
      refine ⟨fun b hb => ?_, hpwN⟩
      rcases (hmemN b hb).1 with hbf | hbl
      · exact fun hc => hnm1 (by rw [hc]; exact hbf)
      · exact Nat.ne_of_lt (Nat.lt_of_lt_of_le hlt1 hbl)
    · intro h2 hh2
      rcases List.mem_cons.mp hh2 with heq | htl
      · subst heq
        exact ⟨hsrc1, fun hc => hnm1 (hsubN _ hc), Nat.lt_of_lt_of_le hlt1 hlenN⟩
      · obtain ⟨hsrc, hnm, hlt⟩ := hmemN h2 htl
        refine ⟨?_, hnm, hlt⟩
        rcases hsrc with hbf | hbl
        · exact Or.inl (hsub1 _ hbf)
        · exact Or.inr (Nat.le_trans hlen1 hbl)

theorem good_of_reachable {m : IdentityManager} (h : Reachable m) : GoodIM m := by
  induction h with
  | init => exact ⟨List.nodup_nil, by simp⟩
  | step_alloc hr halloc ih =>
    rename_i m0 m1 h1
    obtain ⟨m1', h1', halloc', hg1, _⟩ := alloc_step_good m0 ih
    rw [halloc] at halloc'
    injection halloc' with hA hB
    rw [hA]
    exact hg1
  | step_free hr hfree ih =>
    rename_i m0 m1 id
    obtain ⟨hep, hmem, hm1⟩ := IdentityManager.free_handle_ok_inv hfree
    have hlt := lt_length_of_getElem?_some hep
    rw [hm1]
    constructor
    · rw [List.nodup_cons]
      exact ⟨hmem rfl, ih.1⟩
    · intro x hx
      rcases List.mem_cons.mp hx with heq | htl
      · subst heq
        simpa using hlt
      · simpa using ih.2 x htl

/-- Claim C7: from any allocator state reachable by alloc/free use, the
handles returned by any number of successive alloc calls with no
intervening free have pairwise-distinct indices. -/
theorem alloc_pairwise_distinct (m : IdentityManager) (hm : Reachable m) (n : Nat) :
    ((allocSeq m n).2).Pairwise (fun a b => a.index ≠ b.index) :=
  (allocSeq_spec n m (good_of_reachable hm)).2.2.2.1

/-- Witness for C7: four successive allocations from the initial state. -/
theorem alloc_pairwise_distinct_witness :
    ((allocSeq ⟨[], []⟩ 4).2).Pairwise (fun a b => a.index ≠ b.index) :=
  alloc_pairwise_distinct ⟨[], []⟩ Reachable.init 4


